import Mathlib

/-
  Shallow embedding of the polymarket-hunter trading agent
  (package `polymarket_hunter`), covering:
  - the strategy evaluator (`core/strategy/strategy_evaluator.py`),
  - the Kalman trend direction hysteresis (`core/strategy/tend_detector.py`),
  - the per-market actor (`core/subscriber/websocket/actor/market_actor.py`),
  - the order request store and order executor
    (`dal/order_request_store.py`, `core/service/order_service.py`),
  - the trade record store and trade handler
    (`dal/trade_record_store.py`,
     `core/subscriber/websocket/handler/trade_handler.py`),
  - the price-change handler (`core/subscriber/websocket/handler/price_handler.py`).

  Python floats are modelled as rationals (the properties below only
  concern comparisons and exact arithmetic on decimal constants);
  Python dicts are modelled as insertion-ordered association lists,
  matching the guaranteed iteration order of dicts; the Redis-backed
  stores are modelled as association lists whose list order stands for
  the (unspecified) Redis scan order.
-/

namespace PolymarketHunter

/-- `Side` enum from `dal/datamodel/strategy_action.py`. -/
inductive Side where
  | BUY
  | SELL
deriving DecidableEq, Repr

/-- The two sides are distinct (used to reduce branch conditions). -/
@[simp] theorem buy_ne_sell : Side.BUY ≠ Side.SELL := by decide

/-- The two sides are distinct (used to reduce branch conditions). -/
@[simp] theorem sell_ne_buy : Side.SELL ≠ Side.BUY := by decide

/-- `OrderType` enum from `dal/datamodel/strategy_action.py`. -/
inductive OrderType where
  | MARKET
  | LIMIT
deriving DecidableEq, Repr

/-- `TIF` enum from `dal/datamodel/strategy_action.py`. -/
inductive TIF where
  | GTC
  | FOK
  | GTD
  | FAK
deriving DecidableEq, Repr

/-- `RequestSource` enum from `dal/datamodel/order_request.py`. -/
inductive RequestSource where
  | STOP_LOSS
  | TAKE_PROFIT
  | STRATEGY_ENTER
  | STRATEGY_EXIT
  | API_CALL
deriving DecidableEq, Repr

/-- `Direction` enum from `dal/datamodel/trend_prediction.py`. -/
inductive Direction where
  | FLAT
  | UP
  | DOWN
deriving DecidableEq, Repr

/-- Direction constructors are pairwise distinct. -/
@[simp] theorem up_ne_flat : Direction.UP ≠ Direction.FLAT := by decide

/-- Direction constructors are pairwise distinct. -/
@[simp] theorem down_ne_flat : Direction.DOWN ≠ Direction.FLAT := by decide

/-- Direction constructors are pairwise distinct. -/
@[simp] theorem flat_ne_up : Direction.FLAT ≠ Direction.UP := by decide

/-- Direction constructors are pairwise distinct. -/
@[simp] theorem flat_ne_down : Direction.FLAT ≠ Direction.DOWN := by decide

/-- Direction constructors are pairwise distinct. -/
@[simp] theorem up_ne_down : Direction.UP ≠ Direction.DOWN := by decide

/-- Direction constructors are pairwise distinct. -/
@[simp] theorem down_ne_up : Direction.DOWN ≠ Direction.UP := by decide

/-- `EventCode` enum from `dal/datamodel/trade_error.py`. -/
inductive EventCode where
  | TREND_FLAT
  | TREND_REVERSAL
  | TREND_MISMATCH
  | NO_ENTER
  | NO_EXIT
  | SLIPPAGE
  | LOCKOUT
  | CLOB_API_ERROR
  | EXCEPTION
  | STRUCTURAL_ERROR
  | MISSING_DATA_ERROR
deriving DecidableEq, Repr

/-- `EventState` enum from `dal/datamodel/trade_error.py`. -/
inductive EventState where
  | VALIDATED
  | BLOCKED
  | FAILED
deriving DecidableEq, Repr

/-- `TrendPrediction` from `dal/datamodel/trend_prediction.py`
(the fields consumed by the evaluator and the price handler).
`flippedTs` is only read under `reversal = true`, where the price
handler always sets it. -/
structure TrendPrediction where
  direction : Direction
  tStat : ℚ
  velocity : ℚ
  confidence : ℚ
  reversal : Bool := false
  flippedFrom : Option Direction := none
  flippedTs : ℚ := 0
deriving DecidableEq, Repr

/-- Per-outcome price entry as built by
`PriceChangeHandler.get_outcome_prices`: the BUY and SELL prices,
with 0 standing for an absent side (the handler fills 0 defaults). -/
structure PriceEntry where
  buy : ℚ
  sell : ℚ
deriving DecidableEq, Repr

/-- `MarketContext` from `dal/datamodel/market_context.py`, restricted to
the fields the verified code paths read.  `end_date` is already in UTC
seconds (`dt_to_seconds` output). -/
structure MarketContext where
  condition_id : String
  end_date : ℤ
  order_min_size : ℚ
  outcomes : List String
  clob_token_ids : List String
  outcome_prices : List (String × PriceEntry)
  outcome_assets : List (String × String)
  outcome_trends : List (String × Option TrendPrediction)
  event_ts : ℚ
deriving DecidableEq, Repr

/-- `StrategyAction` from `dal/datamodel/strategy_action.py`.  The three
optional numeric fields default to `slippage = 0.05`, `stop_loss = 1`,
`take_profit = 1` as in the pydantic model. -/
structure StrategyAction where
  side : Side
  size : ℚ
  outcome : String
  slippage : ℚ := 1 / 20
  stop_loss : ℚ := 1
  take_profit : ℚ := 1
  order_type : Option OrderType := some OrderType.MARKET
  time_in_force : TIF := TIF.FOK
deriving DecidableEq, Repr

/-- `OrderRequest` from `dal/datamodel/order_request.py` (fields used by
the evaluator and the executor). -/
structure OrderRequest where
  market_id : String
  asset_id : String
  outcome : String
  price : ℚ
  size : ℚ
  side : Side
  tif : TIF
  order_type : OrderType
  request_source : RequestSource
  strategy_name : String
  rule_name : String
  action : StrategyAction
deriving DecidableEq, Repr

/-- One `TradeEvent` row as written by `TradeEvent.log`
(`dal/datamodel/trade_error.py`), restricted to the discriminating
fields. -/
structure TradeEventRow where
  side : Side
  state : EventState
  request_source : RequestSource
  code : Option EventCode
deriving DecidableEq, Repr

/-- `ts_to_seconds` from `utils/helper.py`: timestamps above `1e11`
are in milliseconds and are divided by 1000. -/
def tsToSeconds (ts : ℚ) : ℚ :=
  if ts > 100000000000 then ts / 1000 else ts

/-- `REVERSAL_CONFIRMATION_PERIOD_SECONDS` from `core/strategy/strategy_evaluator.py`. -/
def REVERSAL_CONFIRMATION_PERIOD_SECONDS : ℚ := 60

/-- `TradeRecord` from `dal/datamodel/trade_record.py` as consumed by the
trade-record store and the trade handler (`active`, `matched_amount`,
timestamps and the identifying key fields). -/
structure TradeRecord where
  market_id : String
  asset_id : String
  side : Side
  order_id : String
  outcome : String
  matched_amount : ℚ
  size : ℚ
  price : ℚ
  status : String
  active : Bool
  trader_side : String
  matched_ts : ℚ
  created_ts : ℚ
  updated_ts : ℚ
deriving DecidableEq, Repr

/-- Key of the trade-record store: `(market_id, asset_id, side, order_id)`
(`RedisTradeRecordStore._set_key`). -/
structure TradeKey where
  market_id : String
  asset_id : String
  side : Side
  order_id : String
deriving DecidableEq, Repr

/-- The trade-record store, modelled as an association list.  The list
order stands for the Redis SSCAN iteration order of
`RedisTradeRecordStore._iter_records`. -/
abbrev TradeStore := List (TradeKey × TradeRecord)

/-- `RedisTradeRecordStore.get` (exact four-part key lookup). -/
def tradeStoreGet (store : TradeStore) (k : TradeKey) : Option TradeRecord :=
  (store.find? (fun kv => kv.1 = k)).map (·.2)

/-- Association-list lookup standing for a Python dict read with `get`. -/
def dictGet {β : Type} (l : List (String × β)) (k : String) : Option β :=
  (l.find? (fun kv => kv.1 = k)).map (·.2)

/-- `StrategyEvaluator._validate_request` from
`core/strategy/strategy_evaluator.py` lines 51-118: the boolean verdict
plus the single `TradeEvent` row it logs. -/
def validateRequest (ctx : MarketContext) (outcome : String)
    (request : OrderRequest) : Bool × TradeEventRow :=
  if request.request_source = RequestSource.TAKE_PROFIT
      ∨ request.request_source = RequestSource.STOP_LOSS then
    (true, { side := request.side, state := EventState.VALIDATED,
             request_source := request.request_source, code := none })
  else
    match (dictGet ctx.outcome_trends outcome).getD none with
    | none =>
        (false, { side := request.side, state := EventState.BLOCKED,
                  request_source := request.request_source,
                  code := some EventCode.TREND_FLAT })
    | some trend =>
        if trend.direction = Direction.FLAT then
          (false, { side := request.side, state := EventState.BLOCKED,
                    request_source := request.request_source,
                    code := some EventCode.TREND_FLAT })
        else
          let now := tsToSeconds ctx.event_ts
          if trend.reversal
              ∧ now - trend.flippedTs < REVERSAL_CONFIRMATION_PERIOD_SECONDS then
            (false, { side := request.side, state := EventState.BLOCKED,
                      request_source := request.request_source,
                      code := some EventCode.TREND_REVERSAL })
          else
            let expected_side :=
              if trend.direction = Direction.UP then Side.BUY else Side.SELL
            if request.side ≠ expected_side then
              (false, { side := request.side, state := EventState.BLOCKED,
                        request_source := request.request_source,
                        code := some EventCode.TREND_MISMATCH })
            else
              (true, { side := request.side, state := EventState.VALIDATED,
                       request_source := request.request_source, code := none })

/-- One order dict inside a `trade` websocket message: either the taker
order fetched via `get_order(taker_order_id)` or an entry of
`maker_orders` (`TradeHandler._merge_trade_record` reads these keys). -/
structure TradeMsgOrder where
  asset_id : String
  side : Side
  order_id : Option String := none
  id : String
  status : Option String := none
  price : ℚ
  matched_amount : Option ℚ := none
  size_matched : Option ℚ := none
  outcome : String := ""
deriving DecidableEq, Repr

/-- A `trade` websocket message (the fields `TradeHandler` reads). -/
structure TradeMsg where
  market : String
  status : String
  trader_side : String
  taker_order_id : String := ""
  maker_orders : List TradeMsgOrder := []
  size : ℚ
  match_time : ℚ
deriving Repr

/-- `order.get("order_id") or order["id"]`: Python `or` falls through on
the empty string and on `None`. -/
def resolvedOrderId (o : TradeMsgOrder) : String :=
  match o.order_id with
  | some s => if s = "" then o.id else s
  | none => o.id

/-- ASCII uppercase of one character (Python `str.upper` per char; the
statuses involved are ASCII). -/
def upChar (c : Char) : Char :=
  if 'a' ≤ c ∧ c ≤ 'z' then Char.ofNat (c.toNat - 32) else c

/-- Python `str.upper()` for the ASCII status strings involved. -/
def pyUpper (s : String) : String := String.mk (s.data.map upChar)

/-- `(order.get("status") or "").upper() or msg.get("status") or "LIVE"`. -/
def resolvedStatus (o : TradeMsgOrder) (msg : TradeMsg) : String :=
  let s1 := pyUpper (o.status.getD "")
  if s1 ≠ "" then s1 else if msg.status ≠ "" then msg.status else "LIVE"

/-- `float(order.get("matched_amount") or order.get("size_matched") or 0.0)`:
Python `or` falls through on `None` and on numeric zero. -/
def resolvedSizeMat (o : TradeMsgOrder) : ℚ :=
  if o.matched_amount.getD 0 ≠ 0 then o.matched_amount.getD 0
  else if o.size_matched.getD 0 ≠ 0 then o.size_matched.getD 0
  else 0

/-- `TradeHandler._merge_trade_record` from
`core/subscriber/websocket/handler/trade_handler.py` lines 38-86:
create a fresh record with `active = True`, or update the record with
the same `(market, asset, side, order_id)` key.  `_append_raw_event`
only touches the raw-event log and `updated_ts` (via `touch()`, the
`now` argument); the raw-event log itself is not modelled. -/
def mergeTradeRecord (store : TradeStore) (msg : TradeMsg)
    (order : TradeMsgOrder) (now : ℚ) : TradeRecord :=
  let market_id := msg.market
  let asset_id := order.asset_id
  let side := order.side
  let order_id := resolvedOrderId order
  let status := resolvedStatus order msg
  let price := order.price
  let size_orig := msg.size * price
  let size_mat := resolvedSizeMat order
  match tradeStoreGet store ⟨market_id, asset_id, side, order_id⟩ with
  | none =>
      { market_id := market_id
        asset_id := asset_id
        side := side
        order_id := order_id
        outcome := order.outcome
        matched_amount := size_mat
        size := size_orig
        price := price
        status := status
        active := true
        trader_side := msg.trader_side
        matched_ts := msg.match_time
        created_ts := now
        updated_ts := now }
  | some tr =>
      let new_matched := if size_mat ≠ 0 then size_mat else tr.matched_amount
      let bumped_match_ts :=
        if new_matched ≠ tr.matched_amount then
          (if msg.match_time ≠ 0 then msg.match_time else tr.matched_ts)
        else tr.matched_ts
      { tr with
        matched_amount := new_matched
        status := if status ≠ "" then status else tr.status
        price := if price ≠ 0 then price else tr.price
        size := if size_orig ≠ 0 then size_orig else tr.size
        trader_side := msg.trader_side
        matched_ts := bumped_match_ts
        updated_ts := now }

/-- Key of a trade record (`RedisTradeRecordStore._set_key`). -/
def TradeRecord.key (rec : TradeRecord) : TradeKey :=
  ⟨rec.market_id, rec.asset_id, rec.side, rec.order_id⟩

/-- `RedisTradeRecordStore.add`: upsert the document under the record
key; the returned flag is `true` when the key was new (an `add` event
is published, otherwise `update`). -/
def tradeStoreAdd (store : TradeStore) (rec : TradeRecord) :
    TradeStore × Bool :=
  match store with
  | [] => ([(rec.key, rec)], true)
  | (k, v) :: rest =>
      if k = rec.key then ((k, rec) :: rest, false)
      else ((k, v) :: (tradeStoreAdd rest rec).1, (tradeStoreAdd rest rec).2)

/-- Key of the order-request store (`RedisOrderRequestStore._set_key`):
`(market_id, asset_id, side)`. -/
structure OrderKey where
  market_id : String
  asset_id : String
  side : Side
deriving DecidableEq, Repr

/-- The order-request store (set members plus documents), modelled as an
association list. -/
abbrev OrderStore := List (OrderKey × OrderRequest)

/-- `RedisOrderRequestStore.get`. -/
def orderStoreGet (store : OrderStore) (market_id asset_id : String)
    (side : Side) : Option OrderRequest :=
  (store.find? (fun kv => kv.1 = ⟨market_id, asset_id, side⟩)).map (·.2)

/-- `RedisOrderRequestStore.remove` (`dal/order_request_store.py` lines
74-82): `SREM` + `DEL` for the `(market_id, asset_id, side)` key.  All
three arguments are required positional parameters. -/
def orderStoreRemove (store : OrderStore) (market_id asset_id : String)
    (side : Side) : OrderStore :=
  store.filter (fun kv => kv.1 ≠ (⟨market_id, asset_id, side⟩ : OrderKey))

/-- `RedisOrderRequestStore.add`: upsert, with `true` meaning a fresh
key (an `add` event), `false` an `update` event. -/
def orderStoreAdd (store : OrderStore) (req : OrderRequest) :
    OrderStore × Bool :=
  match store with
  | [] => ([(⟨req.market_id, req.asset_id, req.side⟩, req)], true)
  | (k, v) :: rest =>
      if k = (⟨req.market_id, req.asset_id, req.side⟩ : OrderKey) then
        ((k, req) :: rest, false)
      else ((k, v) :: (orderStoreAdd rest req).1, (orderStoreAdd rest req).2)

/-- `OrderService.execute_order` from `core/service/order_service.py`
lines 25-50, as invoked by the order subscriber on a store event.  The
exchange placement response is external input; its `success` flag is
the `success` argument.  When
`bool(resp.get("success")) == (request.side == Side.SELL)` the code
executes `await self._store.remove(request.market_id, request.asset_id)`
— a call to `RedisOrderRequestStore.remove`, which requires the third
positional argument `side`; the call therefore raises `TypeError`
before any key is removed, modelled as `Except.error`.  In every other
case no removal is attempted and the store is returned unchanged. -/
def executeOrder (store : OrderStore) (action : String)
    (request : OrderRequest) (success : Bool) : Except String OrderStore :=
  if action = "add" ∨ action = "update" then
    match request.action.order_type with
    | none => Except.error "NotImplementedError"
    | some _ =>
        if success = (request.side = Side.SELL) then
          Except.error "TypeError: remove missing 1 required positional argument"
        else
          Except.ok store
  else Except.ok store

/-- A `MsgEnvelope` (`core/subscriber/websocket/actor/msg_envelope.py`):
an optional event timestamp and an opaque payload identifier. -/
structure MsgEnvelope where
  timestamp : Option ℤ
  payload : ℕ
deriving DecidableEq, Repr

/-- `MarketActor` state (`core/subscriber/websocket/actor/market_actor.py`):
the bounded mailbox (deque, `maxlen = max_mailbox`), the `last_seq`
watermark, and — for the dispatch trace — the list of envelopes handed
to `router.dispatch` so far. -/
structure ActorState where
  mailbox : List MsgEnvelope
  last_seq : Option ℤ
  dispatched : List MsgEnvelope
deriving DecidableEq, Repr

/-- `MarketActor.__init__` defaults (`max_mailbox = 256`). -/
def MAX_MAILBOX : ℕ := 256

/-- The starting actor state: empty mailbox, `last_seq = None`. -/
def actorInit : ActorState := ⟨[], none, []⟩

/-- Appending to a `deque(maxlen = MAX_MAILBOX)`: beyond capacity the
oldest entries are discarded. -/
def dequeAppend (mailbox : List MsgEnvelope) (env : MsgEnvelope) :
    List MsgEnvelope :=
  let l := mailbox ++ [env]
  l.drop (l.length - MAX_MAILBOX)

/-- `MarketActor.post` (lines 31-36): drop the envelope when its
timestamp is present and `<= last_seq`; otherwise append it to the
mailbox (the deque discards from the oldest end beyond `maxlen`). -/
def actorPost (s : ActorState) (env : MsgEnvelope) : ActorState :=
  match env.timestamp, s.last_seq with
  | some t, some l =>
      if t ≤ l then s
      else { s with mailbox := dequeAppend s.mailbox env }
  | _, _ => { s with mailbox := dequeAppend s.mailbox env }

/-- One pass of the `MarketActor._run` loop body after the coalescing
sleep (lines 50-67): if the mailbox is empty, do nothing; otherwise read
only the newest envelope, advance `last_seq` when the envelope carries a
timestamp, and dispatch it to the router.  The loop never pops the
mailbox. -/
def actorRunStep (s : ActorState) : ActorState :=
  match s.mailbox.getLast? with
  | none => s
  | some env =>
      { s with
        last_seq := match env.timestamp with
          | some t => some t
          | none => s.last_seq
        dispatched := s.dispatched ++ [env] }

/-- `KalmanTrend` constructor defaults: `t_enter`. -/
def T_ENTER : ℚ := 2

/-- `KalmanTrend` constructor defaults: `t_hold`. -/
def T_HOLD : ℚ := 1

/-- `KalmanTrend` constructor defaults: `t_alpha` (EMA factor). -/
def T_ALPHA : ℚ := 3 / 10

/-- Per-key direction state of `KalmanTrend`: the EMA-smoothed t-stat
`_t_ema[key]` and the retained direction `_dir[key]`. -/
structure KalmanDirState where
  tEma : ℚ
  dir : Direction
deriving DecidableEq, Repr

/-- State after the initializing first call of `KalmanTrend.update` for
a key: `_t_ema[key] = 0.0`, `_dir[key] = FLAT` (the first call returns a
FLAT prediction without running the filter). -/
def kalmanDirInit : KalmanDirState := ⟨0, Direction.FLAT⟩

/-- The EMA + direction-hysteresis tail of `KalmanTrend.update`
(`core/strategy/tend_detector.py` lines 121-133), driven by the raw
t-stat `raw_t = v / sqrt(vvar)` computed by the filter.  Returns the
new smoothed t-stat, the direction reported in the returned
`TrendPrediction`, and the new per-key state. -/
def kalmanDirStep (s : KalmanDirState) (rawT : ℚ) :
    ℚ × Direction × KalmanDirState :=
  let t := s.tEma + T_ALPHA * (rawT - s.tEma)
  let d : Direction :=
    if t ≥ T_ENTER ∨ (t ≥ T_HOLD ∧ s.dir = Direction.UP) then Direction.UP
    else if t ≤ -T_ENTER ∨ (t ≤ -T_HOLD ∧ s.dir = Direction.DOWN) then
      Direction.DOWN
    else Direction.FLAT
  (t, d, { tEma := t, dir := if d ≠ Direction.FLAT then d else s.dir })

/-- A sequence of `KalmanTrend.update` calls on one key after the
initializing call, driven by the successive raw t-stats: final state and
the trace of (smoothed t-stat, reported direction) pairs. -/
def kalmanRun (s : KalmanDirState) : List ℚ → KalmanDirState × List (ℚ × Direction)
  | [] => (s, [])
  | r :: rs =>
      let step := kalmanDirStep s r
      let rest := kalmanRun step.2.2 rs
      (rest.1, (step.1, step.2.1) :: rest.2)

/-- One entry of the `price_changes` array of a `price_change` event. -/
structure PriceChange where
  asset_id : String
  best_ask : Option ℚ
  best_bid : Option ℚ
deriving DecidableEq, Repr

/-- One asset entry of `PriceChangeHandler._price_map[market_id]`:
`{"outcome": str, BUY: Decimal, SELL: Decimal, "trend": ...}` with the
BUY/SELL keys possibly absent. -/
structure AssetBook where
  outcome : String
  buyPrice : Option ℚ := none
  sellPrice : Option ℚ := none
  trend : Option TrendPrediction := none
deriving DecidableEq, Repr

/-- The per-market slice of `PriceChangeHandler._price_map`, an
insertion-ordered dict keyed by `asset_id`. -/
abbrev MarketBook := List (String × AssetBook)

/-- `q3` from `utils/helper.py`: quantize to 3 decimal places, rounding
down (prices are nonnegative, so `ROUND_DOWN` coincides with floor). -/
def q3 (x : ℚ) : ℚ := (⌊x * 1000⌋ : ℚ) / 1000

/-- `dict.setdefault(key, dflt)` followed by an in-place mutation `f` of
the entry: existing keys keep their position, a new key is appended. -/
def bookUpsert (book : MarketBook) (aid : String) (dflt : AssetBook)
    (f : AssetBook → AssetBook) : MarketBook :=
  match book with
  | [] => [(aid, f dflt)]
  | (k, v) :: rest =>
      if k = aid then (k, f v) :: rest
      else (k, v) :: bookUpsert rest aid dflt f

/-- Python `list.index`: the index of the first occurrence, `none`
standing for the `ValueError`. -/
def pyIndex (l : List String) (x : String) : Option ℕ :=
  match l with
  | [] => none
  | y :: ys => if y = x then some 0 else (pyIndex ys x).map (· + 1)

/-- The body of the `for pc in msg["price_changes"]` loop of
`PriceChangeHandler.update_prices` (lines 37-56): resolve the outcome of
`pc.asset_id` via `outcomes[token_ids.index(asset_id)]` (a `ValueError`
— the asset is not among the tokens of the market — skips the entry),
`setdefault` the asset book and overwrite the BUY/SELL prices that the
entry carries. -/
def applyPriceChange (tokenIds outcomes : List String) (book : MarketBook)
    (pc : PriceChange) : MarketBook :=
  match pyIndex tokenIds pc.asset_id with
  | none => book
  | some i =>
      match outcomes.get? i with
      | none => book
      | some outc =>
          bookUpsert book pc.asset_id { outcome := outc } (fun d =>
            let d := match pc.best_ask with
              | some a => { d with buyPrice := some (q3 a) }
              | none => d
            match pc.best_bid with
            | some b => { d with sellPrice := some (q3 b) }
            | none => d)

/-- `PriceChangeHandler.update_prices` over one event. -/
def updatePrices (tokenIds outcomes : List String) (book : MarketBook)
    (pcs : List PriceChange) : MarketBook :=
  pcs.foldl (applyPriceChange tokenIds outcomes) book

/-- `PriceChangeHandler.get_outcome_prices` (lines 115-124): per-outcome
BUY/SELL prices with 0 defaults for absent sides. -/
def getOutcomePrices (book : MarketBook) : List (String × PriceEntry) :=
  book.map (fun kv => (kv.2.outcome, ⟨kv.2.buyPrice.getD 0, kv.2.sellPrice.getD 0⟩))

/-- `PriceChangeHandler.get_outcome_assets`. -/
def getOutcomeAssets (book : MarketBook) : List (String × String) :=
  book.map (fun kv => (kv.2.outcome, kv.1))

/-- `PriceChangeHandler.get_outcome_trends`. -/
def getOutcomeTrends (book : MarketBook) : List (String × Option TrendPrediction) :=
  book.map (fun kv => (kv.2.outcome, kv.2.trend))

/-- The per-market price book after the `PriceChangeHandler` has handled
a sequence of `price_change` events for one market (each event
contributing its `price_changes` array), starting from the empty book. -/
def runPriceChanges (tokenIds outcomes : List String)
    (msgs : List (List PriceChange)) : MarketBook :=
  msgs.foldl (fun book pcs => updatePrices tokenIds outcomes book pcs) []

/-- `PriceChangeHandler.build_context` (lines 90-113), restricted to the
fields of `MarketContext` modelled here: the market metadata plus the
three per-outcome maps derived from the current book. -/
def buildContext (condition_id : String) (end_date : ℤ) (order_min_size : ℚ)
    (outcomes tokenIds : List String) (book : MarketBook) (event_ts : ℚ) :
    MarketContext :=
  { condition_id := condition_id
    end_date := end_date
    order_min_size := order_min_size
    outcomes := outcomes
    clob_token_ids := tokenIds
    outcome_prices := getOutcomePrices book
    outcome_assets := getOutcomeAssets book
    outcome_trends := getOutcomeTrends book
    event_ts := event_ts }

/-- Which branch the `StrategyEvaluator.evaluate` loop (lines 324-339)
takes for one outcome. -/
inductive EvalBranch where
  | exitCheck
  | enterCheck
  | skip
deriving DecidableEq, Repr

/-- The `StrategyEvaluator.evaluate` loop over
`context.outcome_assets.items()`: for every outcome it reads the BUY and
SELL intents from the order store and picks `should_exit`,
`should_enter`, or skips.  The returned list records, in order, the
outcomes the evaluator visits and the branch taken for each. -/
def evaluateBranches (orders : OrderStore) (ctx : MarketContext) :
    List (String × EvalBranch) :=
  ctx.outcome_assets.map (fun oa =>
    let enter_request := orderStoreGet orders ctx.condition_id oa.2 Side.BUY
    let exit_request := orderStoreGet orders ctx.condition_id oa.2 Side.SELL
    (oa.1,
      if enter_request.isSome ∧ exit_request.isNone then EvalBranch.exitCheck
      else if enter_request.isNone ∧ exit_request.isNone then EvalBranch.enterCheck
      else EvalBranch.skip))

/-! Concrete fixtures used by the witnesses and counterexamples below. -/

/-- A plain BUY entry action for outcome `Up`
(`slippage`, `stop_loss`, `take_profit` at their pydantic defaults). -/
def sampleBuyAction : StrategyAction :=
  { side := Side.BUY, size := 5, outcome := "Up" }

/-- A stored BUY entry intent for `(m1, a1)`. -/
def reqBuy : OrderRequest :=
  { market_id := "m1", asset_id := "a1", outcome := "Up", price := 1/2,
    size := 5, side := Side.BUY, tif := TIF.FOK,
    order_type := OrderType.MARKET,
    request_source := RequestSource.STRATEGY_ENTER,
    strategy_name := "s", rule_name := "r", action := sampleBuyAction }

/-- A stored SELL exit intent for `(m1, a1)`. -/
def reqSell : OrderRequest :=
  { reqBuy with side := Side.SELL,
                request_source := RequestSource.STRATEGY_EXIT }

/-- An order-request store holding both the BUY and the SELL intent for
`(m1, a1)`. -/
def ordersBothSides : OrderStore :=
  [(⟨"m1", "a1", Side.BUY⟩, reqBuy), (⟨"m1", "a1", Side.SELL⟩, reqSell)]

/-- A context for market `m1` whose outcome `Up` (asset `a1`) quotes the
same BUY and SELL price `p`, with plenty of time left (`end_date` 1000,
evaluated at `now = 0`). -/
def ctxPrice (p : ℚ) : MarketContext :=
  { condition_id := "m1", end_date := 1000, order_min_size := 1,
    outcomes := ["Up", "Down"], clob_token_ids := ["a1", "a2"],
    outcome_prices := [("Up", ⟨p, p⟩)], outcome_assets := [("Up", "a1")],
    outcome_trends := [("Up", none)], event_ts := 0 }

/-! ## C1 — order executor intent removal -/

/-- C1: the claim states that after the placement call the executor
removes the BUY intent for `(market_id, asset_id)` when
`is_success == (request.side == SELL)` and the SELL intent otherwise.
The code does neither: when the condition holds it calls
`self._store.remove(request.market_id, request.asset_id)`, which omits
the required `side` parameter of `RedisOrderRequestStore.remove` and
raises `TypeError` before anything is removed, and when the condition
fails it performs no removal at all, leaving the SELL intent in place. -/
theorem orderExecutorIntentRemovalBug :
    executeOrder ordersBothSides "add" reqSell true
        = Except.error "TypeError: remove missing 1 required positional argument"
    ∧ executeOrder ordersBothSides "add" reqBuy true = Except.ok ordersBothSides
    ∧ orderStoreRemove ordersBothSides "m1" "a1" Side.SELL ≠ ordersBothSides
    ∧ orderStoreGet ordersBothSides "m1" "a1" Side.SELL = some reqSell := by
  refine ⟨rfl, rfl, ?_, rfl⟩
  simp [ordersBothSides, orderStoreRemove, reqBuy, reqSell, sampleBuyAction]

/-! ## C3 — stop-loss / take-profit trigger constants -/

/-- C8 counterexample: driving the smoothed t-stat through
2.5, 0.5, 1.5 (raw t-stats 25/3, -25/6, 23/6) makes the reported
direction go UP, FLAT, UP — the third update reports UP with a smoothed
t-stat of 1.5 < 2.0, because the retained direction survived the dip
below 1.0; the reported direction therefore becomes UP without the
smoothed t-stat reaching 2.0 at that update. -/
theorem kalmanDirectionCounterexample :
    (kalmanRun kalmanDirInit [25/3, -25/6, 23/6]).2
      = [(5/2, Direction.UP), (1/2, Direction.FLAT), (3/2, Direction.UP)]
    ∧ (3/2 : ℚ) < 2 := by
  refine ⟨?_, by norm_num⟩
  norm_num [kalmanRun, kalmanDirStep, kalmanDirInit, T_ALPHA, T_ENTER, T_HOLD]

/-! ## C9 — get_active selection -/

/-- C7: an envelope posted with a timestamp at or below the `last_seq`
watermark leaves the actor state unchanged — it never enters the
mailbox, and since every dispatch takes its envelope from the mailbox
(second conjunct), it is never dispatched.  In the concrete scenario,
posting timestamps 100, 120, 110 with the actor ticking after the first
two posts dispatches exactly the 100 and 120 envelopes, and the third
post (110 ≤ watermark 120) is dropped, leaving the state untouched. -/
theorem actorStaleDrop :
    (∀ (s : ActorState) (env : MsgEnvelope) (t l : ℤ),
        env.timestamp = some t → s.last_seq = some l → t ≤ l →
          actorPost s env = s)
    ∧ (∀ s : ActorState, (actorRunStep s).dispatched = s.dispatched
          ∨ ∃ env ∈ s.mailbox,
              (actorRunStep s).dispatched = s.dispatched ++ [env])
    ∧ (actorRunStep (actorPost (actorRunStep (actorPost actorInit
          ⟨some 100, 0⟩)) ⟨some 120, 1⟩)).dispatched
        = [⟨some 100, 0⟩, ⟨some 120, 1⟩]
    ∧ actorPost (actorRunStep (actorPost (actorRunStep (actorPost actorInit
          ⟨some 100, 0⟩)) ⟨some 120, 1⟩)) ⟨some 110, 2⟩
        = actorRunStep (actorPost (actorRunStep (actorPost actorInit
          ⟨some 100, 0⟩)) ⟨some 120, 1⟩) := by
  refine ⟨?_, ?_, by decide, by decide⟩
  · intro s env t l ht hl hle
    rw [actorPost, ht, hl]
    simp [hle]
  · intro s
    rw [actorRunStep]
    cases h : s.mailbox.getLast? with
    | none => left; rfl
    | some env =>
        right
        refine ⟨env, ?_, rfl⟩
        obtain ⟨hne, heq⟩ := List.mem_getLast?_eq_getLast
          (show env ∈ s.mailbox.getLast? from h)
        rw [heq]
        exact List.getLast_mem hne

/-- C7 witness: the stale-drop conjunct applied at a concrete state
whose watermark is 5 and an envelope with timestamp 3. -/
theorem actorStaleDropWitness :
    actorPost ⟨[], some 5, []⟩ ⟨some 3, 9⟩ = (⟨[], some 5, []⟩ : ActorState) :=
  actorStaleDrop.1 ⟨[], some 5, []⟩ ⟨some 3, 9⟩ 3 5 rfl rfl (by norm_num)

/-! ## C5 — lockout windows -/

/-- Event codes are pairwise distinct (reduction helpers). -/
@[simp] theorem lockout_ne_slippage : EventCode.LOCKOUT ≠ EventCode.SLIPPAGE := by decide

/-- Event codes are pairwise distinct (reduction helpers). -/
@[simp] theorem missing_ne_slippage :
    EventCode.MISSING_DATA_ERROR ≠ EventCode.SLIPPAGE := by decide

/-- Event codes are pairwise distinct (reduction helpers). -/
@[simp] theorem noexit_ne_slippage : EventCode.NO_EXIT ≠ EventCode.SLIPPAGE := by decide

/-- A direction is non-FLAT exactly when it is UP or DOWN. -/
theorem direction_ne_flat_iff (d : Direction) :
    d ≠ Direction.FLAT ↔ (d = Direction.UP ∨ d = Direction.DOWN) := by
  cases d <;> simp

/-- C6: confirmed — the trend gate lets TAKE_PROFIT and STOP_LOSS
requests through unconditionally; any other request is accepted exactly
when the outcome has a trend with direction UP or DOWN that is not a
reversal younger than `REVERSAL_CONFIRMATION_PERIOD_SECONDS` (60 s) at
the context event time and whose direction matches the request side
(UP allows only BUY, DOWN only SELL); the blocked cases log a BLOCKED
`TradeEvent` with code TREND_FLAT, TREND_REVERSAL or TREND_MISMATCH
respectively. -/
theorem validateRequestTrendGate (ctx : MarketContext) (outcome : String)
    (request : OrderRequest) :
    ((request.request_source = RequestSource.TAKE_PROFIT
        ∨ request.request_source = RequestSource.STOP_LOSS) →
      validateRequest ctx outcome request
        = (true, { side := request.side, state := EventState.VALIDATED,
                   request_source := request.request_source, code := none }))
    ∧ (request.request_source ≠ RequestSource.TAKE_PROFIT →
       request.request_source ≠ RequestSource.STOP_LOSS →
        (((validateRequest ctx outcome request).1 = true ↔
            ∃ trend, (dictGet ctx.outcome_trends outcome).getD none = some trend
              ∧ (trend.direction = Direction.UP ∨ trend.direction = Direction.DOWN)
              ∧ ¬ (trend.reversal = true
                    ∧ tsToSeconds ctx.event_ts - trend.flippedTs
                        < REVERSAL_CONFIRMATION_PERIOD_SECONDS)
              ∧ request.side
                  = (if trend.direction = Direction.UP then Side.BUY else Side.SELL))
          ∧ ((dictGet ctx.outcome_trends outcome).getD none = none →
              validateRequest ctx outcome request
                = (false, { side := request.side, state := EventState.BLOCKED,
                            request_source := request.request_source,
                            code := some EventCode.TREND_FLAT }))
          ∧ (∀ trend,
              (dictGet ctx.outcome_trends outcome).getD none = some trend →
              trend.direction = Direction.FLAT →
              validateRequest ctx outcome request
                = (false, { side := request.side, state := EventState.BLOCKED,
                            request_source := request.request_source,
                            code := some EventCode.TREND_FLAT }))
          ∧ (∀ trend,
              (dictGet ctx.outcome_trends outcome).getD none = some trend →
              trend.direction ≠ Direction.FLAT →
              trend.reversal = true →
              tsToSeconds ctx.event_ts - trend.flippedTs
                  < REVERSAL_CONFIRMATION_PERIOD_SECONDS →
              validateRequest ctx outcome request
                = (false, { side := request.side, state := EventState.BLOCKED,
                            request_source := request.request_source,
                            code := some EventCode.TREND_REVERSAL }))
          ∧ (∀ trend,
              (dictGet ctx.outcome_trends outcome).getD none = some trend →
              trend.direction ≠ Direction.FLAT →
              ¬ (trend.reversal = true
                  ∧ tsToSeconds ctx.event_ts - trend.flippedTs
                      < REVERSAL_CONFIRMATION_PERIOD_SECONDS) →
              request.side
                  ≠ (if trend.direction = Direction.UP then Side.BUY else Side.SELL) →
              validateRequest ctx outcome request
                = (false, { side := request.side, state := EventState.BLOCKED,
                            request_source := request.request_source,
                            code := some EventCode.TREND_MISMATCH })))) := by
  constructor
  · intro h
    unfold validateRequest
    rw [if_pos h]
  · intro h1 h2
    have hcond : ¬ (request.request_source = RequestSource.TAKE_PROFIT
        ∨ request.request_source = RequestSource.STOP_LOSS) := by
      simp [h1, h2]
    unfold validateRequest
    rw [if_neg hcond]
    cases htr : (dictGet ctx.outcome_trends outcome).getD none with
    | none =>
        simp only []
        refine ⟨by simp, by simp, ?_, ?_, ?_⟩ <;> intro trend h <;> simp at h
    | some trend =>
        simp only []
        by_cases hdir : trend.direction = Direction.FLAT
        · rw [if_pos hdir]
          refine ⟨?_, by simp, ?_, ?_, ?_⟩
          · refine ⟨fun h => (nomatch h), ?_⟩
            rintro ⟨t, ht, hud, _, _⟩
            rw [Option.some_inj] at ht
            subst ht
            rcases hud with h | h <;> rw [hdir] at h <;> exact nomatch h
          · intro t ht _
            rfl
          · intro t ht hne _ _
            rw [Option.some_inj] at ht
            subst ht
            exact absurd hdir hne
          · intro t ht hne _ _
            rw [Option.some_inj] at ht
            subst ht
            exact absurd hdir hne
        · rw [if_neg hdir]
          by_cases hrev : (trend.reversal = true
              ∧ tsToSeconds ctx.event_ts - trend.flippedTs
                  < REVERSAL_CONFIRMATION_PERIOD_SECONDS)
          · rw [if_pos hrev]
            refine ⟨?_, by simp, ?_, ?_, ?_⟩
            · refine ⟨fun h => (nomatch h), ?_⟩
              rintro ⟨t, ht, _, hnr, _⟩
              rw [Option.some_inj] at ht
              subst ht
              exact absurd hrev hnr
            · intro t ht hf
              rw [Option.some_inj] at ht
              subst ht
              exact absurd hf hdir
            · intro t ht _ _ _
              rfl
            · intro t ht _ hnr _
              rw [Option.some_inj] at ht
              subst ht
              exact absurd hrev hnr
          · rw [if_neg hrev]
            by_cases hside : request.side
                = (if trend.direction = Direction.UP then Side.BUY else Side.SELL)
            · rw [if_neg (by simp [hside])]
              refine ⟨?_, by simp, ?_, ?_, ?_⟩
              · exact ⟨fun _ => ⟨trend, rfl,
                  (direction_ne_flat_iff trend.direction).mp hdir, hrev, hside⟩,
                  fun _ => rfl⟩
              · intro t ht hf
                rw [Option.some_inj] at ht
                subst ht
                exact absurd hf hdir
              · intro t ht _ hr hlt
                rw [Option.some_inj] at ht
                subst ht
                exact absurd ⟨hr, hlt⟩ hrev
              · intro t ht _ _ hs
                rw [Option.some_inj] at ht
                subst ht
                exact absurd hside hs
            · rw [if_pos (by simp [hside])]
              refine ⟨?_, by simp, ?_, ?_, ?_⟩
              · refine ⟨fun h => (nomatch h), ?_⟩
                rintro ⟨t, ht, _, _, hs⟩
                rw [Option.some_inj] at ht
                subst ht
                exact absurd hs hside
              · intro t ht hf
                rw [Option.some_inj] at ht
                subst ht
                exact absurd hf hdir
              · intro t ht _ hr hlt
                rw [Option.some_inj] at ht
                subst ht
                exact absurd ⟨hr, hlt⟩ hrev
              · intro t ht _ _ _
                rfl

/-- C6 witness: the gate applied to a TAKE_PROFIT request (bypass) and
to a STRATEGY_ENTER request with no trend for the outcome (blocked with
TREND_FLAT). -/
theorem validateRequestTrendGateWitness :
    validateRequest (ctxPrice (1/2)) "Up"
        { reqSell with request_source := RequestSource.TAKE_PROFIT }
      = (true, { side := Side.SELL, state := EventState.VALIDATED,
                 request_source := RequestSource.TAKE_PROFIT, code := none })
    ∧ validateRequest (ctxPrice (1/2)) "Up" reqBuy
      = (false, { side := Side.BUY, state := EventState.BLOCKED,
                  request_source := RequestSource.STRATEGY_ENTER,
                  code := some EventCode.TREND_FLAT }) := by
  constructor
  · exact (validateRequestTrendGate (ctxPrice (1/2)) "Up"
      { reqSell with request_source := RequestSource.TAKE_PROFIT }).1
      (Or.inl rfl)
  · exact ((validateRequestTrendGate (ctxPrice (1/2)) "Up" reqBuy).2
      (by decide) (by decide)).2.1 (by norm_num [dictGet, ctxPrice])

/-! ## C8 — Kalman direction hysteresis, amended -/

/-- One hysteresis step, entering UP from a non-UP retained direction,
requires the smoothed t-stat to have reached `t_enter = 2`. -/
theorem kalmanDirStep_up_of_not_up (s : KalmanDirState) (r : ℚ)
    (h : s.dir ≠ Direction.UP)
    (hup : (kalmanDirStep s r).2.1 = Direction.UP) :
    2 ≤ (kalmanDirStep s r).1 := by
  simp only [kalmanDirStep] at hup ⊢
  by_cases hA : (s.tEma + T_ALPHA * (r - s.tEma)) ≥ T_ENTER
      ∨ ((s.tEma + T_ALPHA * (r - s.tEma)) ≥ T_HOLD ∧ s.dir = Direction.UP)
  · rcases hA with hA | ⟨_, hd⟩
    · simpa [T_ENTER] using hA
    · exact absurd hd h
  · rw [if_neg hA] at hup
    split_ifs at hup

/-- One hysteresis step with retained direction UP and smoothed t-stat
at least `t_hold = 1` reports UP and retains UP. -/
theorem kalmanDirStep_hold (s : KalmanDirState) (r : ℚ)
    (h : s.dir = Direction.UP) (ht : 1 ≤ (kalmanDirStep s r).1) :
    (kalmanDirStep s r).2.1 = Direction.UP
    ∧ (kalmanDirStep s r).2.2.dir = Direction.UP := by
  simp only [kalmanDirStep] at ht ⊢
  have hA : (s.tEma + T_ALPHA * (r - s.tEma)) ≥ T_ENTER
      ∨ ((s.tEma + T_ALPHA * (r - s.tEma)) ≥ T_HOLD ∧ s.dir = Direction.UP) :=
    Or.inr ⟨by simpa [T_HOLD] using ht, h⟩
  rw [if_pos hA]
  simp

/-- One hysteresis step whose smoothed t-stat lies in the band `[1, 2)`
reports UP exactly when the retained direction is UP (else FLAT), and
leaves the retained direction unchanged. -/
theorem kalmanDirStep_band (s : KalmanDirState) (r : ℚ)
    (h1 : 1 ≤ (kalmanDirStep s r).1) (h2 : (kalmanDirStep s r).1 < 2) :
    (kalmanDirStep s r).2.1
        = (if s.dir = Direction.UP then Direction.UP else Direction.FLAT)
    ∧ (kalmanDirStep s r).2.2.dir = s.dir := by
  simp only [kalmanDirStep] at h1 h2 ⊢
  by_cases hd : s.dir = Direction.UP
  · have hA : (s.tEma + T_ALPHA * (r - s.tEma)) ≥ T_ENTER
        ∨ ((s.tEma + T_ALPHA * (r - s.tEma)) ≥ T_HOLD ∧ s.dir = Direction.UP) :=
      Or.inr ⟨by simpa [T_HOLD] using h1, hd⟩
    rw [if_pos hA]
    simp [hd]
  · have hA : ¬ ((s.tEma + T_ALPHA * (r - s.tEma)) ≥ T_ENTER
        ∨ ((s.tEma + T_ALPHA * (r - s.tEma)) ≥ T_HOLD ∧ s.dir = Direction.UP)) := by
      rw [T_ENTER, T_HOLD]
      push_neg
      exact ⟨by linarith, fun _ => hd⟩
    rw [if_neg hA]
    have hB : ¬ ((s.tEma + T_ALPHA * (r - s.tEma)) ≤ -T_ENTER
        ∨ ((s.tEma + T_ALPHA * (r - s.tEma)) ≤ -T_HOLD ∧ s.dir = Direction.DOWN)) := by
      rw [T_ENTER, T_HOLD]
      push_neg
      exact ⟨by linarith, fun h => absurd h (by linarith)⟩
    rw [if_neg hB]
    simp [hd]

/-- The retained direction after a step: the reported direction unless
it is FLAT, in which case the previous retained direction survives. -/
theorem kalmanDirStep_dir (s : KalmanDirState) (r : ℚ) :
    (kalmanDirStep s r).2.2.dir
      = (if (kalmanDirStep s r).2.1 = Direction.FLAT then s.dir
         else (kalmanDirStep s r).2.1) := by
  simp only [kalmanDirStep]
  rw [ite_not]

/-- Over a run starting from a non-UP retained direction, any reported
UP is preceded (or accompanied) by a smoothed t-stat of at least 2. -/
theorem kalmanRun_up_entry (raws : List ℚ) :
    ∀ (s : KalmanDirState), s.dir ≠ Direction.UP →
    ∀ (n : ℕ) (t : ℚ), ((kalmanRun s raws).2.get? n) = some (t, Direction.UP) →
    ∃ m, m ≤ n ∧ ∃ p, (kalmanRun s raws).2.get? m = some p ∧ 2 ≤ p.1 := by
  induction raws with
  | nil =>
      intro s _ n t h
      simp [kalmanRun] at h
  | cons r rs ih =>
      intro s hs n t h
      simp only [kalmanRun] at h ⊢
      cases n with
      | zero =>
          simp only [List.get?_cons_zero, Option.some_inj, Prod.mk.injEq] at h
          refine ⟨0, le_refl 0, ((kalmanDirStep s r).1, (kalmanDirStep s r).2.1),
            rfl, ?_⟩
          exact kalmanDirStep_up_of_not_up s r hs h.2
      | succ n =>
          by_cases hup : (kalmanDirStep s r).2.1 = Direction.UP
          · exact ⟨0, Nat.zero_le _,
              ((kalmanDirStep s r).1, (kalmanDirStep s r).2.1), rfl,
              kalmanDirStep_up_of_not_up s r hs hup⟩
          · have hs' : (kalmanDirStep s r).2.2.dir ≠ Direction.UP := by
              rw [kalmanDirStep_dir]
              split_ifs with hf
              · exact hs
              · exact hup
            simp only [List.get?_cons_succ] at h
            obtain ⟨m, hm, p, hp, h2⟩ := ih (kalmanDirStep s r).2.2 hs' n t h
            exact ⟨m + 1, Nat.succ_le_succ hm, p, by simpa using hp, h2⟩

/-- Over a run starting with retained direction UP whose smoothed
t-stats all stay at least 1, every reported direction is UP. -/
theorem kalmanRun_hold (raws : List ℚ) :
    ∀ (s : KalmanDirState), s.dir = Direction.UP →
    (∀ p ∈ (kalmanRun s raws).2, 1 ≤ p.1) →
    ∀ p ∈ (kalmanRun s raws).2, p.2 = Direction.UP := by
  induction raws with
  | nil =>
      intro s _ _ p hp
      simp [kalmanRun] at hp
  | cons r rs ih =>
      intro s hs hall p hp
      have h1 : 1 ≤ (kalmanDirStep s r).1 :=
        hall ((kalmanDirStep s r).1, (kalmanDirStep s r).2.1)
          (by simp [kalmanRun])
      have hstep := kalmanDirStep_hold s r hs h1
      simp only [kalmanRun, List.mem_cons] at hp
      rcases hp with hp | hp
      · rw [hp]
        exact hstep.1
      · exact ih (kalmanDirStep s r).2.2 hstep.2
          (fun q hq => hall q (by simp only [kalmanRun, List.mem_cons]; right; exact hq))
          p hp

/-- Over a run whose smoothed t-stats all lie in `[1, 2)`, the reported
direction is constant: UP when the starting retained direction is UP,
FLAT otherwise — no oscillation inside the band. -/
theorem kalmanRun_band (raws : List ℚ) :
    ∀ (s : KalmanDirState),
    (∀ p ∈ (kalmanRun s raws).2, 1 ≤ p.1 ∧ p.1 < 2) →
    ∀ p ∈ (kalmanRun s raws).2,
      p.2 = (if s.dir = Direction.UP then Direction.UP else Direction.FLAT) := by
  induction raws with
  | nil =>
      intro s _ p hp
      simp [kalmanRun] at hp
  | cons r rs ih =>
      intro s hall p hp
      have hh := hall ((kalmanDirStep s r).1, (kalmanDirStep s r).2.1)
        (by simp [kalmanRun])
      have hstep := kalmanDirStep_band s r hh.1 hh.2
      simp only [kalmanRun, List.mem_cons] at hp
      rcases hp with hp | hp
      · rw [hp]
        exact hstep.1
      · have := ih (kalmanDirStep s r).2.2
          (fun q hq => hall q (by simp only [kalmanRun, List.mem_cons]; right; exact hq))
          p hp
        rw [this, hstep.2]

/-- One hysteresis step, entering DOWN from a non-DOWN retained
direction, requires the smoothed t-stat to have reached `-t_enter = -2`. -/
theorem kalmanDirStep_down_of_not_down (s : KalmanDirState) (r : ℚ)
    (h : s.dir ≠ Direction.DOWN)
    (hdn : (kalmanDirStep s r).2.1 = Direction.DOWN) :
    (kalmanDirStep s r).1 ≤ -2 := by
  simp only [kalmanDirStep] at hdn ⊢
  by_cases hA : (s.tEma + T_ALPHA * (r - s.tEma)) ≥ T_ENTER
      ∨ ((s.tEma + T_ALPHA * (r - s.tEma)) ≥ T_HOLD ∧ s.dir = Direction.UP)
  · rw [if_pos hA] at hdn
    simp at hdn
  · rw [if_neg hA] at hdn
    by_cases hB : (s.tEma + T_ALPHA * (r - s.tEma)) ≤ -T_ENTER
        ∨ ((s.tEma + T_ALPHA * (r - s.tEma)) ≤ -T_HOLD ∧ s.dir = Direction.DOWN)
    · rcases hB with hB | ⟨_, hd⟩
      · simpa [T_ENTER] using hB
      · exact absurd hd h
    · rw [if_neg hB] at hdn
      simp at hdn

/-- One hysteresis step with retained direction DOWN and smoothed
t-stat at most `-t_hold = -1` reports DOWN and retains DOWN. -/
theorem kalmanDirStep_down_hold (s : KalmanDirState) (r : ℚ)
    (h : s.dir = Direction.DOWN) (ht : (kalmanDirStep s r).1 ≤ -1) :
    (kalmanDirStep s r).2.1 = Direction.DOWN
    ∧ (kalmanDirStep s r).2.2.dir = Direction.DOWN := by
  simp only [kalmanDirStep] at ht ⊢
  have hA : ¬ ((s.tEma + T_ALPHA * (r - s.tEma)) ≥ T_ENTER
      ∨ ((s.tEma + T_ALPHA * (r - s.tEma)) ≥ T_HOLD ∧ s.dir = Direction.UP)) := by
    rw [T_ENTER, T_HOLD]
    push_neg
    exact ⟨by linarith, fun hge => absurd hge (by linarith)⟩
  have hB : (s.tEma + T_ALPHA * (r - s.tEma)) ≤ -T_ENTER
      ∨ ((s.tEma + T_ALPHA * (r - s.tEma)) ≤ -T_HOLD ∧ s.dir = Direction.DOWN) :=
    Or.inr ⟨by simpa [T_HOLD] using ht, h⟩
  rw [if_neg hA, if_pos hB]
  simp

/-- One hysteresis step whose smoothed t-stat lies in the band
`(-2, -1]` reports DOWN exactly when the retained direction is DOWN
(else FLAT), and leaves the retained direction unchanged. -/
theorem kalmanDirStep_down_band (s : KalmanDirState) (r : ℚ)
    (h1 : (kalmanDirStep s r).1 ≤ -1) (h2 : -2 < (kalmanDirStep s r).1) :
    (kalmanDirStep s r).2.1
        = (if s.dir = Direction.DOWN then Direction.DOWN else Direction.FLAT)
    ∧ (kalmanDirStep s r).2.2.dir = s.dir := by
  simp only [kalmanDirStep] at h1 h2 ⊢
  have hA : ¬ ((s.tEma + T_ALPHA * (r - s.tEma)) ≥ T_ENTER
      ∨ ((s.tEma + T_ALPHA * (r - s.tEma)) ≥ T_HOLD ∧ s.dir = Direction.UP)) := by
    rw [T_ENTER, T_HOLD]
    push_neg
    exact ⟨by linarith, fun hge => absurd hge (by linarith)⟩
  rw [if_neg hA]
  by_cases hd : s.dir = Direction.DOWN
  · have hB : (s.tEma + T_ALPHA * (r - s.tEma)) ≤ -T_ENTER
        ∨ ((s.tEma + T_ALPHA * (r - s.tEma)) ≤ -T_HOLD ∧ s.dir = Direction.DOWN) :=
      Or.inr ⟨by simpa [T_HOLD] using h1, hd⟩
    rw [if_pos hB]
    simp [hd]
  · have hB : ¬ ((s.tEma + T_ALPHA * (r - s.tEma)) ≤ -T_ENTER
        ∨ ((s.tEma + T_ALPHA * (r - s.tEma)) ≤ -T_HOLD ∧ s.dir = Direction.DOWN)) := by
      rw [T_ENTER, T_HOLD]
      push_neg
      exact ⟨by linarith, fun _ => hd⟩
    rw [if_neg hB]
    simp [hd]

/-- Over a run starting from a non-DOWN retained direction, any
reported DOWN is preceded (or accompanied) by a smoothed t-stat of at
most -2. -/
theorem kalmanRun_down_entry (raws : List ℚ) :
    ∀ (s : KalmanDirState), s.dir ≠ Direction.DOWN →
    ∀ (n : ℕ) (t : ℚ), ((kalmanRun s raws).2.get? n) = some (t, Direction.DOWN) →
    ∃ m, m ≤ n ∧ ∃ p, (kalmanRun s raws).2.get? m = some p ∧ p.1 ≤ -2 := by
  induction raws with
  | nil =>
      intro s _ n t h
      simp [kalmanRun] at h
  | cons r rs ih =>
      intro s hs n t h
      simp only [kalmanRun] at h ⊢
      cases n with
      | zero =>
          simp only [List.get?_cons_zero, Option.some_inj, Prod.mk.injEq] at h
          refine ⟨0, le_refl 0, ((kalmanDirStep s r).1, (kalmanDirStep s r).2.1),
            rfl, ?_⟩
          exact kalmanDirStep_down_of_not_down s r hs h.2
      | succ n =>
          by_cases hdn : (kalmanDirStep s r).2.1 = Direction.DOWN
          · exact ⟨0, Nat.zero_le _,
              ((kalmanDirStep s r).1, (kalmanDirStep s r).2.1), rfl,
              kalmanDirStep_down_of_not_down s r hs hdn⟩
          · have hs' : (kalmanDirStep s r).2.2.dir ≠ Direction.DOWN := by
              rw [kalmanDirStep_dir]
              split_ifs with hf
              · exact hs
              · exact hdn
            simp only [List.get?_cons_succ] at h
            obtain ⟨m, hm, p, hp, h2⟩ := ih (kalmanDirStep s r).2.2 hs' n t h
            exact ⟨m + 1, Nat.succ_le_succ hm, p, by simpa using hp, h2⟩

/-- Over a run starting with retained direction DOWN whose smoothed
t-stats all stay at most -1, every reported direction is DOWN. -/
theorem kalmanRun_down_hold (raws : List ℚ) :
    ∀ (s : KalmanDirState), s.dir = Direction.DOWN →
    (∀ p ∈ (kalmanRun s raws).2, p.1 ≤ -1) →
    ∀ p ∈ (kalmanRun s raws).2, p.2 = Direction.DOWN := by
  induction raws with
  | nil =>
      intro s _ _ p hp
      simp [kalmanRun] at hp
  | cons r rs ih =>
      intro s hs hall p hp
      have h1 : (kalmanDirStep s r).1 ≤ -1 :=
        hall ((kalmanDirStep s r).1, (kalmanDirStep s r).2.1)
          (by simp [kalmanRun])
      have hstep := kalmanDirStep_down_hold s r hs h1
      simp only [kalmanRun, List.mem_cons] at hp
      rcases hp with hp | hp
      · rw [hp]
        exact hstep.1
      · exact ih (kalmanDirStep s r).2.2 hstep.2
          (fun q hq => hall q (by simp only [kalmanRun, List.mem_cons]; right; exact hq))
          p hp

/-- Over a run whose smoothed t-stats all lie in `(-2, -1]`, the
reported direction is constant: DOWN when the starting retained
direction is DOWN, FLAT otherwise — no oscillation inside the band. -/
theorem kalmanRun_down_band (raws : List ℚ) :
    ∀ (s : KalmanDirState),
    (∀ p ∈ (kalmanRun s raws).2, p.1 ≤ -1 ∧ -2 < p.1) →
    ∀ p ∈ (kalmanRun s raws).2,
      p.2 = (if s.dir = Direction.DOWN then Direction.DOWN else Direction.FLAT) := by
  induction raws with
  | nil =>
      intro s _ p hp
      simp [kalmanRun] at hp
  | cons r rs ih =>
      intro s hall p hp
      have hh := hall ((kalmanDirStep s r).1, (kalmanDirStep s r).2.1)
        (by simp [kalmanRun])
      have hstep := kalmanDirStep_down_band s r hh.1 hh.2
      simp only [kalmanRun, List.mem_cons] at hp
      rcases hp with hp | hp
      · rw [hp]
        exact hstep.1
      · have := ih (kalmanDirStep s r).2.2
          (fun q hq => hall q (by simp only [kalmanRun, List.mem_cons]; right; exact hq))
          p hp
        rw [this, hstep.2]

/-- C8: corrected — over any update sequence from a fresh key, a
reported UP requires the smoothed t-stat to have reached 2.0 at that or
an earlier update; while the retained direction is UP, every update
with smoothed t-stat at least 1.0 reports UP; and while the smoothed
t-stat stays inside `[1.0, 2.0)` the reported direction never changes
(no UP/FLAT oscillation).  Symmetrically for DOWN with negated
thresholds: a reported DOWN requires the smoothed t-stat to have
reached -2.0 at that or an earlier update, DOWN is held while the
t-stat stays at most -1.0, and inside `(-2.0, -1.0]` the reported
direction never changes.  However — the amendment the counterexample
forces, on both sides alike — after the t-stat magnitude dips below
1.0 the retained direction is preserved, so UP (resp. DOWN) can be
reported again at any t-stat of at least 1.0 (resp. at most -1.0)
without re-reaching 2.0 (resp. -2.0). -/
theorem kalmanDirectionHysteresis :
    (∀ (raws : List ℚ) (n : ℕ) (t : ℚ),
        ((kalmanRun kalmanDirInit raws).2.get? n) = some (t, Direction.UP) →
        ∃ m, m ≤ n ∧ ∃ p, (kalmanRun kalmanDirInit raws).2.get? m = some p
          ∧ 2 ≤ p.1)
    ∧ (∀ (s : KalmanDirState) (raws : List ℚ), s.dir = Direction.UP →
        (∀ p ∈ (kalmanRun s raws).2, 1 ≤ p.1) →
        ∀ p ∈ (kalmanRun s raws).2, p.2 = Direction.UP)
    ∧ (∀ (s : KalmanDirState) (raws : List ℚ),
        (∀ p ∈ (kalmanRun s raws).2, 1 ≤ p.1 ∧ p.1 < 2) →
        ∀ p ∈ (kalmanRun s raws).2,
          p.2 = (if s.dir = Direction.UP then Direction.UP else Direction.FLAT))
    ∧ (∀ (raws : List ℚ) (n : ℕ) (t : ℚ),
        ((kalmanRun kalmanDirInit raws).2.get? n) = some (t, Direction.DOWN) →
        ∃ m, m ≤ n ∧ ∃ p, (kalmanRun kalmanDirInit raws).2.get? m = some p
          ∧ p.1 ≤ -2)
    ∧ (∀ (s : KalmanDirState) (raws : List ℚ), s.dir = Direction.DOWN →
        (∀ p ∈ (kalmanRun s raws).2, p.1 ≤ -1) →
        ∀ p ∈ (kalmanRun s raws).2, p.2 = Direction.DOWN)
    ∧ (∀ (s : KalmanDirState) (raws : List ℚ),
        (∀ p ∈ (kalmanRun s raws).2, p.1 ≤ -1 ∧ -2 < p.1) →
        ∀ p ∈ (kalmanRun s raws).2,
          p.2 = (if s.dir = Direction.DOWN then Direction.DOWN
                 else Direction.FLAT)) :=
  ⟨fun raws n t h =>
      kalmanRun_up_entry raws kalmanDirInit (by simp [kalmanDirInit]) n t h,
   fun s raws => kalmanRun_hold raws s,
   fun s raws => kalmanRun_band raws s,
   fun raws n t h =>
      kalmanRun_down_entry raws kalmanDirInit (by simp [kalmanDirInit]) n t h,
   fun s raws => kalmanRun_down_hold raws s,
   fun s raws => kalmanRun_down_band raws s⟩

/-- C8 witness: a single update with raw t-stat 7 smooths to 2.1 and
reports UP; the first-entry conjunct applied there yields the index at
which the t-stat reached 2. -/
theorem kalmanDirectionHysteresisWitness :
    ∃ m, m ≤ 0 ∧ ∃ p, (kalmanRun kalmanDirInit [7]).2.get? m = some p
      ∧ 2 ≤ p.1 :=
  kalmanDirectionHysteresis.1 [7] 0 (21/10)
    (by norm_num [kalmanRun, kalmanDirStep, kalmanDirInit, T_ALPHA, T_ENTER,
      T_HOLD])

/-! ## C2 — no opposite-side deactivation, amended -/

/-- Under the store invariant that every document carries its own key,
a merged trade record is keyed by
`(msg.market, order.asset_id, order.side, resolved order id)`. -/
theorem mergeTradeRecord_key (store : TradeStore) (msg : TradeMsg)
    (order : TradeMsgOrder) (now : ℚ)
    (hwf : ∀ kv ∈ store, kv.2.key = kv.1) :
    (mergeTradeRecord store msg order now).key
      = ⟨msg.market, order.asset_id, order.side, resolvedOrderId order⟩ := by
  unfold mergeTradeRecord
  cases h : tradeStoreGet store
      ⟨msg.market, order.asset_id, order.side, resolvedOrderId order⟩ with
  | none => simp [h, TradeRecord.key]
  | some tr =>
      have htr : tr.key
          = (⟨msg.market, order.asset_id, order.side, resolvedOrderId order⟩ : TradeKey) := by
        unfold tradeStoreGet at h
        rw [Option.map_eq_some'] at h
        obtain ⟨kv, hfind, hkv⟩ := h
        have hmem : kv ∈ store := List.mem_of_find?_eq_some hfind
        have hpred := List.find?_some hfind
        simp only [decide_eq_true_eq] at hpred
        rw [← hkv, hwf kv hmem, hpred]
      simp only [h]
      simp [TradeRecord.key] at htr ⊢
      exact htr

/-- Upserting a record leaves every other key untouched. -/
theorem tradeStoreAdd_get_ne (store : TradeStore) (rec : TradeRecord)
    (k : TradeKey) (hne : k ≠ rec.key) :
    tradeStoreGet (tradeStoreAdd store rec).1 k = tradeStoreGet store k := by
  induction store with
  | nil =>
      unfold tradeStoreAdd tradeStoreGet
      simp [List.find?, Ne.symm hne]
  | cons kv rest ih =>
      obtain ⟨k0, v0⟩ := kv
      unfold tradeStoreAdd
      by_cases hk : k0 = rec.key
      · rw [if_pos hk]
        unfold tradeStoreGet
        have hne' : ¬ (k0 = k) := by rw [hk]; exact Ne.symm hne
        simp [List.find?_cons, hne']
      · rw [if_neg hk]
        unfold tradeStoreGet at ih ⊢
        by_cases hkk : k0 = k
        · simp [List.find?_cons, hkk]
        · simp only [List.find?_cons, hkk, decide_eq_true_eq, if_false]
          simpa [hkk] using ih

/-- Upserting preserves the every-document-carries-its-key invariant. -/
theorem tradeStoreAdd_wf (store : TradeStore) (rec : TradeRecord)
    (hwf : ∀ kv ∈ store, kv.2.key = kv.1) :
    ∀ kv ∈ (tradeStoreAdd store rec).1, kv.2.key = kv.1 := by
  induction store with
  | nil =>
      intro kv hkv
      unfold tradeStoreAdd at hkv
      simp at hkv
      rw [hkv]
  | cons kv0 rest ih =>
      obtain ⟨k0, v0⟩ := kv0
      intro kv hkv
      unfold tradeStoreAdd at hkv
      by_cases hk : k0 = rec.key
      · rw [if_pos hk] at hkv
        rcases List.mem_cons.mp hkv with hh | hh
        · rw [hh, hk]
        · exact hwf kv (List.mem_cons_of_mem _ hh)
      · rw [if_neg hk] at hkv
        rcases List.mem_cons.mp hkv with hh | hh
        · rw [hh]
          exact hwf ⟨k0, v0⟩ (List.mem_cons_self _ _)
        · exact ih (fun q hq => hwf q (List.mem_cons_of_mem _ hq)) kv hh

/-! ## C10 — outcome maps built by the price handler -/

/-- The outcome of an asset id: `outcomes[token_ids.index(asset_id)]`
when both lookups succeed. -/
def outcomeOf (tokenIds outcomes : List String) (a : String) : Option String :=
  (pyIndex tokenIds a).bind (fun i => outcomes.get? i)

/-- `pyIndex` returns an index of the element. -/
theorem pyIndex_get (l : List String) (x : String) :
    ∀ i, pyIndex l x = some i → l.get? i = some x := by
  induction l with
  | nil => intro i h; simp [pyIndex] at h
  | cons y ys ih =>
      intro i h
      unfold pyIndex at h
      by_cases hy : y = x
      · rw [if_pos hy] at h
        simp only [Option.some_inj] at h
        rw [← h, hy]
        rfl
      · rw [if_neg hy] at h
        rw [Option.map_eq_some'] at h
        obtain ⟨j, hj, hi⟩ := h
        rw [← hi]
        simpa using ih j hj

/-- On a duplicate-free list, `pyIndex` inverts indexing. -/
theorem pyIndex_of_get_nodup (l : List String) (hnd : l.Nodup) :
    ∀ (i : ℕ) (x : String), l.get? i = some x → pyIndex l x = some i := by
  induction l with
  | nil => intro i x h; simp at h
  | cons y ys ih =>
      intro i x h
      cases i with
      | zero =>
          simp only [List.get?_cons_zero, Option.some_inj] at h
          unfold pyIndex
          rw [if_pos h]
      | succ i =>
          simp only [List.get?_cons_succ] at h
          have hx : x ∈ ys := by
            have h2 := h
            rw [List.get?_eq_getElem?] at h2
            exact List.getElem?_mem h2
          have hy : y ≠ x := by
            rintro rfl
            exact (List.nodup_cons.mp hnd).1 hx
          unfold pyIndex
          rw [if_neg hy, ih (List.nodup_cons.mp hnd).2 i x h]
          rfl

/-- Keys after an upsert: the old keys plus the upserted one. -/
theorem mem_keys_bookUpsert (book : MarketBook) (aid : String)
    (dflt : AssetBook) (f : AssetBook → AssetBook) (k : String) :
    k ∈ (bookUpsert book aid dflt f).map Prod.fst
      ↔ k ∈ book.map Prod.fst ∨ k = aid := by
  induction book with
  | nil => simp [bookUpsert]
  | cons kv rest ih =>
      obtain ⟨k0, v0⟩ := kv
      unfold bookUpsert
      by_cases h0 : k0 = aid
      · rw [if_pos h0]
        simp [h0]
        exact fun h => Or.inl h
      · rw [if_neg h0]
        simp only [List.map_cons, List.mem_cons, ih]
        tauto

/-- Keys after one price-change entry: the old keys, plus the asset of
the entry when its outcome is resolvable through the token list. -/
theorem mem_keys_applyPriceChange (tids outs : List String)
    (book : MarketBook) (pc : PriceChange) (k : String) :
    k ∈ (applyPriceChange tids outs book pc).map Prod.fst
      ↔ k ∈ book.map Prod.fst
        ∨ (k = pc.asset_id ∧ (outcomeOf tids outs pc.asset_id).isSome) := by
  unfold applyPriceChange outcomeOf
  cases hi : pyIndex tids pc.asset_id with
  | none => simp
  | some i =>
      simp only [Option.bind_some]
      cases ho : outs.get? i with
      | none =>
          rw [List.get?_eq_getElem?] at ho
          simp [ho]
      | some outc =>
          simp only [ho]
          rw [mem_keys_bookUpsert]
          rw [List.get?_eq_getElem?] at ho
          simp [ho]

/-- Keys after a fold of price-change entries. -/
theorem mem_keys_foldlPriceChanges (tids outs : List String) :
    ∀ (pcs : List PriceChange) (book : MarketBook) (k : String),
    k ∈ (pcs.foldl (applyPriceChange tids outs) book).map Prod.fst
      ↔ k ∈ book.map Prod.fst
        ∨ ∃ pc ∈ pcs, pc.asset_id = k ∧ (outcomeOf tids outs k).isSome := by
  intro pcs
  induction pcs with
  | nil => simp
  | cons pc rest ih =>
      intro book k
      simp only [List.foldl_cons]
      rw [ih, mem_keys_applyPriceChange]
      constructor
      · rintro ((h | ⟨heq, hsome⟩) | ⟨pc2, hmem, heq, hsome⟩)
        · exact Or.inl h
        · exact Or.inr ⟨pc, List.mem_cons_self _ _, heq.symm, by rwa [heq]⟩
        · exact Or.inr ⟨pc2, List.mem_cons_of_mem _ hmem, heq, hsome⟩
      · rintro (h | ⟨pc2, hmem, heq, hsome⟩)
        · exact Or.inl (Or.inl h)
        · rcases List.mem_cons.mp hmem with heq2 | hmem2
          · subst heq2
            exact Or.inl (Or.inr ⟨heq.symm, by rwa [← heq] at hsome⟩)
          · exact Or.inr ⟨pc2, hmem2, heq, hsome⟩

/-- Every entry of an upserted book still carries the outcome its asset
resolves to, provided the mutation preserves outcomes and the upserted
default is correctly resolved. -/
theorem bookOutcomesOk_upsert (tids outs : List String) (book : MarketBook)
    (aid : String) (dflt : AssetBook) (f : AssetBook → AssetBook)
    (hb : ∀ kv ∈ book, outcomeOf tids outs kv.1 = some kv.2.outcome)
    (hd : outcomeOf tids outs aid = some dflt.outcome)
    (hf : ∀ d, (f d).outcome = d.outcome) :
    ∀ kv ∈ bookUpsert book aid dflt f,
      outcomeOf tids outs kv.1 = some kv.2.outcome := by
  induction book with
  | nil =>
      intro kv hkv
      simp only [bookUpsert, List.mem_singleton] at hkv
      rw [hkv]
      simpa [hf dflt] using hd
  | cons kv0 rest ih =>
      obtain ⟨k0, v0⟩ := kv0
      intro kv hkv
      unfold bookUpsert at hkv
      by_cases h0 : k0 = aid
      · rw [if_pos h0] at hkv
        rcases List.mem_cons.mp hkv with hh | hh
        · rw [hh]
          simpa [hf v0] using hb ⟨k0, v0⟩ (List.mem_cons_self _ _)
        · exact hb kv (List.mem_cons_of_mem _ hh)
      · rw [if_neg h0] at hkv
        rcases List.mem_cons.mp hkv with hh | hh
        · rw [hh]
          exact hb ⟨k0, v0⟩ (List.mem_cons_self _ _)
        · exact ih (fun q hq => hb q (List.mem_cons_of_mem _ hq)) kv hh

/-- One price-change entry preserves the outcome-resolution invariant. -/
theorem bookOutcomesOk_apply (tids outs : List String) (book : MarketBook)
    (pc : PriceChange)
    (hb : ∀ kv ∈ book, outcomeOf tids outs kv.1 = some kv.2.outcome) :
    ∀ kv ∈ applyPriceChange tids outs book pc,
      outcomeOf tids outs kv.1 = some kv.2.outcome := by
  unfold applyPriceChange
  cases hi : pyIndex tids pc.asset_id with
  | none => exact hb
  | some i =>
      simp only []
      cases ho : outs.get? i with
      | none => exact hb
      | some outc =>
          simp only [ho]
          apply bookOutcomesOk_upsert tids outs book pc.asset_id _ _ hb
          · unfold outcomeOf
            rw [hi]
            simpa using ho
          · intro d
            cases pc.best_ask <;> cases pc.best_bid <;> rfl

/-- A fold of price-change entries preserves the outcome-resolution
invariant. -/
theorem bookOutcomesOk_foldl (tids outs : List String) :
    ∀ (pcs : List PriceChange) (book : MarketBook),
    (∀ kv ∈ book, outcomeOf tids outs kv.1 = some kv.2.outcome) →
    ∀ kv ∈ pcs.foldl (applyPriceChange tids outs) book,
      outcomeOf tids outs kv.1 = some kv.2.outcome := by
  intro pcs
  induction pcs with
  | nil => intro book hb; exact hb
  | cons pc rest ih =>
      intro book hb
      simp only [List.foldl_cons]
      exact ih _ (bookOutcomesOk_apply tids outs book pc hb)

/-- Handling messages one by one equals folding over the concatenated
price-change entries. -/
theorem runPriceChanges_eq_join (tids outs : List String)
    (msgs : List (List PriceChange)) :
    runPriceChanges tids outs msgs
      = (msgs.flatten).foldl (applyPriceChange tids outs) [] := by
  have hgen : ∀ (ms : List (List PriceChange)) (book : MarketBook),
      ms.foldl (fun b pcs => updatePrices tids outs b pcs) book
        = (ms.flatten).foldl (applyPriceChange tids outs) book := by
    intro ms
    induction ms with
    | nil => intro book; rfl
    | cons m rest ih =>
        intro book
        simp only [List.foldl_cons, List.flatten_cons, List.foldl_append]
        exact ih (updatePrices tids outs book m)
  exact hgen msgs []

/-- C10: confirmed — after any sequence of `price_change` events for a
market (with duplicate-free token and outcome lists, as the exchange
guarantees), the outcome-keyed price, asset and trend maps of the built
context contain an outcome exactly when its asset id appeared in at
least one processed `price_changes` entry; an outcome whose asset never
appeared is absent from all three maps, and since the evaluator loop
iterates `outcome_assets`, that outcome is never evaluated for entry or
exit. -/
theorem priceHandlerOutcomeMaps (tids outs : List String)
    (msgs : List (List PriceChange)) (i : ℕ) (o a : String)
    (hndT : tids.Nodup) (hndO : outs.Nodup)
    (ha : tids.get? i = some a) (ho : outs.get? i = some o) :
    ((o ∈ (getOutcomeAssets (runPriceChanges tids outs msgs)).map Prod.fst)
        ↔ ∃ pcs ∈ msgs, ∃ pc ∈ pcs, pc.asset_id = a)
    ∧ ((o ∈ (getOutcomePrices (runPriceChanges tids outs msgs)).map Prod.fst)
        ↔ ∃ pcs ∈ msgs, ∃ pc ∈ pcs, pc.asset_id = a)
    ∧ ((o ∈ (getOutcomeTrends (runPriceChanges tids outs msgs)).map Prod.fst)
        ↔ ∃ pcs ∈ msgs, ∃ pc ∈ pcs, pc.asset_id = a)
    ∧ ((¬ ∃ pcs ∈ msgs, ∃ pc ∈ pcs, pc.asset_id = a) →
        ∀ (orders : OrderStore) (cid : String) (ed : ℤ) (ms ts : ℚ),
          o ∉ (evaluateBranches orders
              (buildContext cid ed ms outs tids
                (runPriceChanges tids outs msgs) ts)).map Prod.fst) := by
  have hcore : (∃ kv ∈ runPriceChanges tids outs msgs, kv.2.outcome = o)
      ↔ ∃ pcs ∈ msgs, ∃ pc ∈ pcs, pc.asset_id = a := by
    rw [runPriceChanges_eq_join]
    have hOk : ∀ kv ∈ (msgs.flatten).foldl (applyPriceChange tids outs) [],
        outcomeOf tids outs kv.1 = some kv.2.outcome :=
      bookOutcomesOk_foldl tids outs msgs.flatten [] (by intro kv hkv; simp at hkv)
    have hio : outcomeOf tids outs a = some o := by
      unfold outcomeOf
      rw [pyIndex_of_get_nodup tids hndT i a ha]
      simpa using ho
    constructor
    · rintro ⟨kv, hkv, hout⟩
      have h1 := hOk kv hkv
      rw [hout] at h1
      obtain ⟨j, hj, hgj⟩ : ∃ j, pyIndex tids kv.1 = some j
          ∧ outs.get? j = some o := by
        unfold outcomeOf at h1
        cases hpi : pyIndex tids kv.1 with
        | none => rw [hpi] at h1; simp at h1
        | some j =>
            rw [hpi] at h1
            exact ⟨j, rfl, by simpa using h1⟩
      have hji : j = i := by
        have h2 := pyIndex_of_get_nodup outs hndO j o hgj
        have h3 := pyIndex_of_get_nodup outs hndO i o ho
        rw [h2] at h3
        exact Option.some_inj.mp h3
      have hkva : kv.1 = a := by
        have h4 := pyIndex_get tids kv.1 j hj
        rw [hji, ha] at h4
        exact (Option.some_inj.mp h4).symm
      have hk : kv.1 ∈ ((msgs.flatten).foldl
          (applyPriceChange tids outs) []).map Prod.fst :=
        List.mem_map_of_mem Prod.fst hkv
      rw [mem_keys_foldlPriceChanges] at hk
      rcases hk with h | ⟨pc, hpc, hpca, _⟩
      · simp at h
      · rw [List.mem_flatten] at hpc
        obtain ⟨pcs, hpcs, hpcin⟩ := hpc
        exact ⟨pcs, hpcs, pc, hpcin, by rw [hpca, hkva]⟩
    · rintro ⟨pcs, hpcs, pc, hpcin, hpca⟩
      have hk : a ∈ ((msgs.flatten).foldl
          (applyPriceChange tids outs) []).map Prod.fst := by
        rw [mem_keys_foldlPriceChanges]
        right
        exact ⟨pc, List.mem_flatten.mpr ⟨pcs, hpcs, hpcin⟩, hpca,
          by rw [hio]; rfl⟩
      rw [List.mem_map] at hk
      obtain ⟨kv, hkv, hkva⟩ := hk
      refine ⟨kv, hkv, ?_⟩
      have h1 := hOk kv hkv
      rw [show kv.1 = a from hkva, hio] at h1
      exact (Option.some_inj.mp h1).symm
  have hA : (o ∈ (getOutcomeAssets (runPriceChanges tids outs msgs)).map Prod.fst)
      ↔ (∃ kv ∈ runPriceChanges tids outs msgs, kv.2.outcome = o) := by
    unfold getOutcomeAssets
    rw [List.map_map, List.mem_map]
    constructor
    · rintro ⟨kv, hkv, hout⟩
      exact ⟨kv, hkv, hout⟩
    · rintro ⟨kv, hkv, hout⟩
      exact ⟨kv, hkv, hout⟩
  have hP : (o ∈ (getOutcomePrices (runPriceChanges tids outs msgs)).map Prod.fst)
      ↔ (∃ kv ∈ runPriceChanges tids outs msgs, kv.2.outcome = o) := by
    unfold getOutcomePrices
    rw [List.map_map, List.mem_map]
    constructor
    · rintro ⟨kv, hkv, hout⟩
      exact ⟨kv, hkv, hout⟩
    · rintro ⟨kv, hkv, hout⟩
      exact ⟨kv, hkv, hout⟩
  have hT : (o ∈ (getOutcomeTrends (runPriceChanges tids outs msgs)).map Prod.fst)
      ↔ (∃ kv ∈ runPriceChanges tids outs msgs, kv.2.outcome = o) := by
    unfold getOutcomeTrends
    rw [List.map_map, List.mem_map]
    constructor
    · rintro ⟨kv, hkv, hout⟩
      exact ⟨kv, hkv, hout⟩
    · rintro ⟨kv, hkv, hout⟩
      exact ⟨kv, hkv, hout⟩
  refine ⟨hA.trans hcore, hP.trans hcore, hT.trans hcore, ?_⟩
  intro hnone orders cid ed ms ts hmem
  apply hnone
  apply hcore.mp
  apply hA.mp
  unfold evaluateBranches at hmem
  rw [List.map_map, List.mem_map] at hmem
  obtain ⟨oa, hoa, hfst⟩ := hmem
  unfold buildContext at hoa
  simp only [] at hoa
  exact List.mem_map.mpr ⟨oa, hoa, hfst⟩

/-- C10 witness: with tokens `[t1, t2]` for outcomes `[Up, Down]` and a
single event touching only `t1`, outcome `Down` is absent from the maps
and never visited by the evaluator loop. -/
theorem priceHandlerOutcomeMapsWitness :
    "Down" ∉ (evaluateBranches []
        (buildContext "m1" 1000 1 ["Up", "Down"] ["t1", "t2"]
          (runPriceChanges ["t1", "t2"] ["Up", "Down"]
            [[⟨"t1", some 1, some 1⟩]]) 0)).map Prod.fst :=
  (priceHandlerOutcomeMaps ["t1", "t2"] ["Up", "Down"]
      [[⟨"t1", some 1, some 1⟩]] 1 "Down" "t2"
      (by decide) (by decide) rfl rfl).2.2.2
    (by decide) [] "m1" 1000 1 0

end PolymarketHunter
